import Mathlib

/- Verification development for the team-assistant chat bot (`bot.py`):
   a shallow embedding of its SQLite-backed store operations, its
   conversation-dialog handlers and its daily-digest job, together with
   theorems settling the specification's claims. -/

/-! ### Python / SQLite string primitives -/

/-- Models Python `str.lower` on one character, covering the ASCII and Russian
Cyrillic letters the program manipulates (other characters are left unchanged). -/
def pyLowerChar (c : Char) : Char :=
  if 'A' ≤ c ∧ c ≤ 'Z' then Char.ofNat (c.toNat + 32)
  else if 'А' ≤ c ∧ c ≤ 'Я' then Char.ofNat (c.toNat + 32)
  else if c = 'Ё' then 'ё'
  else c

/-- Models Python `str.lower` (as used for Q&A keys and the Add-Q&A label test). -/
def pyLower (s : String) : String :=
  String.mk (s.data.map pyLowerChar)

/-- Characters matched by Python regex `\s` and stripped by `str.strip`
(the ASCII whitespace set). -/
def isPySpace (c : Char) : Bool :=
  c = ' ' || c = '\t' || c = '\n' || c = '\r' || c = '\x0b' || c = '\x0c'

/-- Byte-wise (code-point) lexicographic comparison of character lists: this is
how SQLite compares two TEXT values, e.g. in `event_date >= ?` and `ORDER BY
event_date`. -/
def listLe : List Char → List Char → Bool
  | [], _ => true
  | _ :: _, [] => false
  | a :: as, b :: bs =>
    if a.toNat < b.toNat then true
    else if b.toNat < a.toNat then false
    else listLe as bs

/-- SQLite TEXT comparison on strings. -/
def strLe (s t : String) : Bool :=
  listLe s.data t.data

/-- Boolean list-prefix test (used to express Python substring containment). -/
def prefixEq : List Char → List Char → Bool
  | [], _ => true
  | _ :: _, [] => false
  | a :: as, b :: bs => a == b && prefixEq as bs

/-- Boolean substring containment on character lists; `containsSub pat l` models
Python's `pat in l`. -/
def containsSub (pat : List Char) : List Char → Bool
  | [] => pat.isEmpty
  | c :: rest => prefixEq pat (c :: rest) || containsSub pat rest

/-- Models Python's `needle in haystack` on strings. -/
def pyContains (haystack needle : String) : Bool :=
  containsSub needle.data haystack.data

/-- Models Python `str.strip()` (whitespace stripped from both ends). -/
def pyStrip (l : List Char) : List Char :=
  ((l.dropWhile isPySpace).reverse.dropWhile isPySpace).reverse

/-- Case-insensitive prefix match of a (lower-case) literal regex pattern
against a text, one character at a time: models matching a literal pattern
under `re.IGNORECASE`. -/
def ciStartsWith : List Char → List Char → Bool
  | [], _ => true
  | _ :: _, [] => false
  | p :: ps, c :: cs => p == pyLowerChar c && ciStartsWith ps cs

/-! ### Digits and datetimes -/

/-- Decimal digit test on a character. -/
def isDig (c : Char) : Bool :=
  48 ≤ c.toNat && c.toNat ≤ 57

/-- Numeric value of a decimal digit character. -/
def dv (c : Char) : Nat :=
  c.toNat - 48

/-- The decimal digit character for a value below ten. -/
def dchar (d : Nat) : Char :=
  Char.ofNat (48 + d)

/-- Two-digit zero-padded decimal rendering (`%02d`). -/
def pad2 (n : Nat) : List Char :=
  [dchar (n / 10), dchar (n % 10)]

/-- Four-digit zero-padded decimal rendering (`%04d`). -/
def pad4 (n : Nat) : List Char :=
  [dchar (n / 1000), dchar (n / 100 % 10), dchar (n / 10 % 10), dchar (n % 10)]

/-- A Python naive `datetime` value as the program uses it (microseconds are
always zero in this program and are not modelled). -/
structure DateTime where
  year : Nat
  month : Nat
  day : Nat
  hour : Nat
  minute : Nat
  second : Nat
deriving DecidableEq

/-- Gregorian leap-year rule (as in Python's `calendar`/`datetime`). -/
def isLeapYear (y : Nat) : Bool :=
  y % 4 == 0 && (y % 100 != 0 || y % 400 == 0)

/-- Number of days in a month (Gregorian calendar, as validated by the
`datetime` constructor). -/
def daysInMonth (y m : Nat) : Nat :=
  if m = 2 then (if isLeapYear y then 29 else 28)
  else if m = 4 ∨ m = 6 ∨ m = 9 ∨ m = 11 then 30
  else 31

/-- Models `datetime.isoformat()` for the datetimes this program stores
(zero microseconds): `YYYY-MM-DDTHH:MM:SS`. -/
def isoformat (d : DateTime) : String :=
  String.mk (pad4 d.year ++ '-' :: pad2 d.month ++ '-' :: pad2 d.day ++
    'T' :: pad2 d.hour ++ ':' :: pad2 d.minute ++ ':' :: pad2 d.second)

/-- The time part `HH[:MM[:SS]]` of an ISO string: two-digit components
separated by colons, with the `datetime` constructor's range checks, exactly
as CPython's `parse_isoformat_time`/`parse_hh_mm_ss_ff` accept it on
timezone-naive whole-second strings (a lone `HH` and an `HH:MM` form are
accepted; any trailing junk is not). Model restriction (not Python
behaviour): fractional-second (`.ffffff`) and timezone-offset suffixes, which
Python parses into sub-second or aware datetimes that this model's
second-precision naive `DateTime` cannot represent, are rejected here. -/
def parseIsoTime : List Char → Option (Nat × Nat × Nat)
  | [h1, h2] =>
    if isDig h1 ∧ isDig h2 ∧ 10 * dv h1 + dv h2 ≤ 23 then
      some (10 * dv h1 + dv h2, 0, 0)
    else none
  | [h1, h2, c1, m1, m2] =>
    if isDig h1 ∧ isDig h2 ∧ isDig m1 ∧ isDig m2 ∧ c1 = ':' ∧
        10 * dv h1 + dv h2 ≤ 23 ∧ 10 * dv m1 + dv m2 ≤ 59 then
      some (10 * dv h1 + dv h2, 10 * dv m1 + dv m2, 0)
    else none
  | [h1, h2, c1, m1, m2, c2, s1, s2] =>
    if isDig h1 ∧ isDig h2 ∧ isDig m1 ∧ isDig m2 ∧ isDig s1 ∧ isDig s2 ∧
        c1 = ':' ∧ c2 = ':' ∧ 10 * dv h1 + dv h2 ≤ 23 ∧
        10 * dv m1 + dv m2 ≤ 59 ∧ 10 * dv s1 + dv s2 ≤ 59 then
      some (10 * dv h1 + dv h2, 10 * dv m1 + dv m2, 10 * dv s1 + dv s2)
    else none
  | _ => none

/-- Models `datetime.fromisoformat` as CPython (3.7–3.10, C implementation)
accepts it: a `YYYY-MM-DD` date with plain digit components and dashes, then
optionally ANY single separator character (the character at index 10 is
skipped without being checked) followed by a time part `HH[:MM[:SS]]`; a
missing time part means midnight, while a separator must be followed by a
valid time part. Range validation is the `datetime` constructor's
(`MINYEAR = 1`, month and day against the calendar, hour/minute/second
bounds). The model restrictions on the time part are those of
`parseIsoTime`. -/
def fromiso (s : String) : Option DateTime :=
  match s.data with
  | y1 :: y2 :: y3 :: y4 :: c1 :: m1 :: m2 :: c2 :: d1 :: d2 :: rest =>
    let y := 1000 * dv y1 + 100 * dv y2 + 10 * dv y3 + dv y4
    let mo := 10 * dv m1 + dv m2
    let da := 10 * dv d1 + dv d2
    if isDig y1 ∧ isDig y2 ∧ isDig y3 ∧ isDig y4 ∧ isDig m1 ∧ isDig m2 ∧
        isDig d1 ∧ isDig d2 ∧ c1 = '-' ∧ c2 = '-' ∧
        1 ≤ y ∧ 1 ≤ mo ∧ mo ≤ 12 ∧ 1 ≤ da ∧ da ≤ daysInMonth y mo then
      match rest with
      | [] => some ⟨y, mo, da, 0, 0, 0⟩
      | _ :: timeChars =>
        (parseIsoTime timeChars).map (fun t => ⟨y, mo, da, t.1, t.2.1, t.2.2⟩)
    else none
  | _ => none

/-- Chronological comparison of datetimes (lexicographic on the fields). -/
def dtLe (a b : DateTime) : Bool :=
  if a.year < b.year then true else if b.year < a.year then false
  else if a.month < b.month then true else if b.month < a.month then false
  else if a.day < b.day then true else if b.day < a.day then false
  else if a.hour < b.hour then true else if b.hour < a.hour then false
  else if a.minute < b.minute then true else if b.minute < a.minute then false
  else a.second ≤ b.second

/-- Field bounds under which the zero-padded rendering is faithful (every
datetime the program constructs satisfies them). -/
def DateTime.Bounded (d : DateTime) : Prop :=
  d.year < 10000 ∧ d.month < 100 ∧ d.day < 100 ∧ d.hour < 100 ∧
    d.minute < 100 ∧ d.second < 100

instance (d : DateTime) : Decidable d.Bounded := by
  unfold DateTime.Bounded
  infer_instance

/-- The field ranges the `datetime` constructor enforces; every datetime this
program constructs (from `strptime` or `fromisoformat`) satisfies them. -/
def DateTime.Valid (d : DateTime) : Prop :=
  1 ≤ d.year ∧ d.year ≤ 9999 ∧ 1 ≤ d.month ∧ d.month ≤ 12 ∧ 1 ≤ d.day ∧
    d.day ≤ daysInMonth d.year d.month ∧ d.hour ≤ 23 ∧ d.minute ≤ 59 ∧ d.second ≤ 59

instance (d : DateTime) : Decidable d.Valid := by
  unfold DateTime.Valid
  infer_instance

/-- The calendar successor day, keeping the time of day (one step of
`timedelta(days=1)` on a naive datetime). -/
def nextDay (d : DateTime) : DateTime :=
  if d.day < daysInMonth d.year d.month then
    { d with day := d.day + 1 }
  else if d.month < 12 then
    { d with month := d.month + 1, day := 1 }
  else
    { d with year := d.year + 1, month := 1, day := 1 }

/-- Models `now + timedelta(days=n)` on a naive datetime. -/
def addDays (d : DateTime) : Nat → DateTime
  | 0 => d
  | n + 1 => nextDay (addDays d n)

/-! ### Data model: the four SQLite tables of `Database` -/

/-- A row of the `company_info` table (`id`/`created_at` are not consulted by
any query and are not modelled). -/
structure QARow where
  question : String
  answer : String
deriving DecidableEq

/-- A row of the `contacts` table. `info` is nullable in the schema. -/
structure ContactRow where
  name : String
  info : Option String
deriving DecidableEq

/-- A row of the `events` table. `event_date` is the stored TEXT value
(`isoformat` of a datetime when written by this program, but arbitrary in a
general database state). `description` is nullable in the schema. -/
structure EventRow where
  name : String
  event_date : String
  description : Option String
  notified : Bool
deriving DecidableEq

/-- An element of the list `get_upcoming_events` returns (the Python dict with
keys `name`, `event_date`, `description`). -/
structure Event where
  name : String
  event_date : DateTime
  description : String
deriving DecidableEq

/-- The whole database state (tables are lists in rowid/insertion order). -/
structure DBState where
  company_info : List QARow
  contacts : List ContactRow
  events : List EventRow
  digests : List String
deriving DecidableEq

/-! ### Store operations (`Database` methods) -/

/-- Models `Database.add_company_info`:
`INSERT OR REPLACE INTO company_info (question, answer) VALUES (?, ?)` with the
question lower-cased; the `UNIQUE` key on `question` makes this delete any row
with the same key and append the fresh row. -/
def add_company_info (qa : List QARow) (question answer : String) : List QARow :=
  qa.filter (fun r => r.question != pyLower question) ++ [⟨pyLower question, answer⟩]

/-- Models `Database.get_company_info`:
`SELECT answer FROM company_info WHERE question = ?` on the lower-cased
question, returning the first row's answer if any. -/
def get_company_info (qa : List QARow) (question : String) : Option String :=
  (qa.find? (fun r => r.question == pyLower question)).map (fun r => r.answer)

/-- Models `Database.add_contact`: a plain `INSERT` (always appends). -/
def add_contact (contacts : List ContactRow) (name info : String) : List ContactRow :=
  contacts ++ [⟨name, some info⟩]

/-- SQLite's default character folding for `LIKE`: ASCII upper-case letters
compare equal to their lower-case forms; all other characters (including
Cyrillic) compare exactly. -/
def sqliteFoldChar (c : Char) : Char :=
  if 'A' ≤ c ∧ c ≤ 'Z' then Char.ofNat (c.toNat + 32) else c

/-- SQLite's `LIKE` pattern match (default `case_sensitive_like = OFF`):
`%` matches any sequence, `_` any single character, and ordinary characters
are compared up to ASCII case folding. -/
def likeMatch : List Char → List Char → Bool
  | [], t => t.isEmpty
  | p :: ps, t =>
    if p = '%' then t.tails.any (fun suf => likeMatch ps suf)
    else
      match t with
      | [] => false
      | c :: ts =>
        if p = '_' then likeMatch ps ts
        else (sqliteFoldChar p == sqliteFoldChar c) && likeMatch ps ts

/-- Models `Database.search_contact`:
`SELECT name, info FROM contacts WHERE name LIKE ?` with the parameter
`'%' + name + '%'`, then `fetchone()` (first row in table order, or `None`). -/
def search_contact (contacts : List ContactRow) (name : String) : Option ContactRow :=
  contacts.find? (fun c => likeMatch ('%' :: name.data ++ ['%']) c.name.data)

/-- Models `Database.add_event`: inserts a row with `event_date` stored as
`event_date.isoformat()` and `notified` defaulted to 0. -/
def add_event (events : List EventRow) (name : String) (event_date : DateTime)
    (description : String) : List EventRow :=
  events ++ [⟨name, isoformat event_date, some description, false⟩]

/-- The SQL ordering used by `ORDER BY event_date` (TEXT comparison). -/
def eventRowLe (a b : EventRow) : Prop :=
  listLe a.event_date.data b.event_date.data = true

instance : DecidableRel eventRowLe := fun a b => by
  unfold eventRowLe; infer_instance

/-- The Python row loop of `get_upcoming_events`: parse each row's date with
`fromisoformat`, skipping (`continue`) rows that fail to parse; `description`
is replaced by the empty string when null (`row['description'] or ''`). -/
def processRows : List EventRow → List Event
  | [] => []
  | r :: rest =>
    match fromiso r.event_date with
    | some d => ⟨r.name, d, r.description.getD ""⟩ :: processRows rest
    | none => processRows rest

/-- Models `Database.get_upcoming_events`: select the un-notified rows with
`event_date >= now` (and `<= now + days` when a window is given), ordered by
`event_date`, then run the parsing loop. -/
def get_upcoming_events (events : List EventRow) (days : Option Nat)
    (now : DateTime) : List Event :=
  let nowStr := isoformat now
  let selected :=
    match days with
    | some d =>
      let endStr := isoformat (addDays now d)
      events.filter (fun (r : EventRow) =>
        strLe nowStr r.event_date && strLe r.event_date endStr && !r.notified)
    | none =>
      events.filter (fun (r : EventRow) => strLe nowStr r.event_date && !r.notified)
  processRows (selected.insertionSort eventRowLe)

/-- Models `Database.mark_event_notified`:
`UPDATE events SET notified = 1 WHERE name = ? AND event_date = ?` with the
date rendered by `isoformat`. -/
def mark_event_notified (events : List EventRow) (event_name : String)
    (event_date : DateTime) : List EventRow :=
  events.map (fun r =>
    if r.name = event_name ∧ r.event_date = isoformat event_date then
      { r with notified := true }
    else r)

/-- Models `Database.add_digest`: a plain `INSERT` (append-only log). -/
def add_digest (digests : List String) (content : String) : List String :=
  digests ++ [content]

/-- Models `Database.get_recent_digests`:
`SELECT content FROM digests ORDER BY created_at DESC LIMIT ?` (most recent
first, i.e. reverse insertion order). -/
def get_recent_digests (digests : List String) (limit : Nat) : List String :=
  digests.reverse.take limit

/-! ### Dialog engine: conversation states and handlers -/

/-- The `ConversationHandler` states (the integers `range(6)` in the source)
plus `ConversationHandler.END`. -/
inductive ConvState where
  | ASKING_QUESTION
  | ADDING_CONTACT_NAME
  | ADDING_CONTACT_INFO
  | ADDING_EVENT_NAME
  | ADDING_EVENT_DATE
  | ADDING_EVENT_DESCRIPTION
  | END
deriving DecidableEq

/-- The distinct outgoing replies a handler can emit (abstracting the literal
Russian message texts of the source). -/
inductive Reply where
  /-- The answer text for a found question. -/
  | answerIs (a : String)
  /-- The question is unknown. -/
  | unknownAnswer
  /-- The Q&A pair was stored. -/
  | answerAdded
  /-- The Q&A store write failed. -/
  | qaWriteFailed
  /-- Question or answer empty after trimming. -/
  | emptyQA
  /-- The label split produced no separator match. -/
  | badFormatSplit
  /-- One of the literal labels is missing from the text. -/
  | badFormatLabels
  /-- Operation cancelled. -/
  | cancelled
  /-- Prompt for the contact's info. -/
  | infoPrompt
  /-- The contact was stored. -/
  | contactAdded
  /-- The contact write failed (or the scratch name was missing/empty). -/
  | contactFailed
  /-- Prompt for the event's date. -/
  | datePrompt
  /-- Prompt for the event's description. -/
  | descPrompt
  /-- The date did not parse; ask again. -/
  | badDate
  /-- The event was stored. -/
  | eventAdded
  /-- The event write failed. -/
  | eventFailed
  /-- Scratch name or date missing at the final event step. -/
  | eventDataMissing
  /-- The digest was stored. -/
  | digestAdded
  /-- The digest write failed. -/
  | digestFailed
  /-- A message not handled in the current state. -/
  | ignored
deriving DecidableEq

/-- The per-user `context.user_data` mutable bag, restricted to the keys this
program uses. -/
structure UserData where
  contact_name : Option String
  event_name : Option String
  event_date : Option DateTime
deriving DecidableEq

/-- The bag after `context.user_data.clear()` (and before anything is stored). -/
def emptyUserData : UserData := ⟨none, none, none⟩

/-- Models `question_received`: look the text up and reply; always ends the
conversation. -/
def question_received (qa : List QARow) (text : String) : Reply × ConvState :=
  match get_company_info qa text with
  | some a => (.answerIs a, .END)
  | none => (.unknownAnswer, .END)

/-- Models `re.split('ответ:\\s*', text, maxsplit=1, flags=re.IGNORECASE)`:
find the first case-insensitive occurrence of the answer label, returning the
text before it and the text after the label and its trailing whitespace
(`none` when the label with colon never occurs, i.e. `len(parts) == 1`). -/
def splitOnAnswerLabel : List Char → Option (List Char × List Char)
  | [] => none
  | c :: rest =>
    if ciStartsWith ("ответ:".data) (c :: rest) then
      some ([], ((c :: rest).drop 6).dropWhile isPySpace)
    else
      (splitOnAnswerLabel rest).map (fun p => (c :: p.1, p.2))

/-- Models `re.sub('^.*?вопрос:\\s*', '', part, flags=re.IGNORECASE)`: drop
everything up to and including the first case-insensitive occurrence of the
question label (reachable without crossing a newline, since `.` does not match
`\n`) and the whitespace after it; `none` when there is no such match (the
text is then left unchanged by `re.sub`). -/
def stripQuestionLabel : List Char → Option (List Char)
  | [] => none
  | c :: rest =>
    if ciStartsWith ("вопрос:".data) (c :: rest) then
      some (((c :: rest).drop 7).dropWhile isPySpace)
    else if c = '\n' then none
    else stripQuestionLabel rest

/-- The head part after `re.sub` removed the question label (or unchanged when
the label does not match). -/
def questionPart (head : List Char) : List Char :=
  match stripQuestionLabel head with
  | some r => r
  | none => head

/-- Models `answer_received`, the single-shot Add-Q&A parser: require both
labels (case-insensitively) in the text, split at the answer label, strip the
question label from the head, trim both parts, and upsert when both are
non-empty. `ok` models whether the underlying SQLite write succeeds. Every
branch ends the conversation. -/
def answer_received (ok : Bool) (qa : List QARow) (text : String) :
    List QARow × Reply × ConvState :=
  let tl := pyLower text
  if pyContains tl "вопрос" && pyContains tl "ответ" then
    match splitOnAnswerLabel text.data with
    | some (head, tail) =>
      let question := String.mk (pyStrip (questionPart head))
      let answer := String.mk (pyStrip tail)
      if question ≠ "" ∧ answer ≠ "" then
        if ok then (add_company_info qa question answer, .answerAdded, .END)
        else (qa, .qaWriteFailed, .END)
      else (qa, .emptyQA, .END)
    | none => (qa, .badFormatSplit, .END)
  else (qa, .badFormatLabels, .END)

/-- Models the `cancel` fallback handler: acknowledge and end the conversation
(the user-data bag is not touched). -/
def cancel (ud : UserData) : UserData × Reply × ConvState :=
  (ud, .cancelled, .END)

/-- Models `add_contact_name`: store the name in the scratch bag and advance. -/
def add_contact_name (ud : UserData) (text : String) : UserData × Reply × ConvState :=
  ({ ud with contact_name := some text }, .infoPrompt, .ADDING_CONTACT_INFO)

/-- Models `add_contact_info`, the final Add-Contact step: if the scratch name
is present (and truthy) and the write succeeds, append the contact and clear
the bag; otherwise report failure (bag untouched). Always ends. `ok` models
whether the SQLite insert succeeds. -/
def add_contact_info (ok : Bool) (contacts : List ContactRow) (ud : UserData)
    (text : String) : List ContactRow × UserData × Reply × ConvState :=
  match ud.contact_name with
  | some name =>
    if name ≠ "" then
      if ok then (add_contact contacts name text, emptyUserData, .contactAdded, .END)
      else (contacts, ud, .contactFailed, .END)
    else (contacts, ud, .contactFailed, .END)
  | none => (contacts, ud, .contactFailed, .END)

/-- Models `add_event_name`: store the event name in the scratch bag, advance
to the date step. -/
def add_event_name (ud : UserData) (text : String) : UserData × Reply × ConvState :=
  ({ ud with event_name := some text }, .datePrompt, .ADDING_EVENT_DATE)

/-- Parse one or two decimal digits with a value in `[lo, hi]`, preferring the
two-digit reading (the backtracking behaviour of `strptime`'s generated regex
for `%d`, `%m`, `%H`, `%M`, which is always followed by a non-digit token). -/
def pTwoOrOne (lo hi : Nat) : List Char → Option (Nat × List Char)
  | c1 :: c2 :: rest =>
    if isDig c1 ∧ isDig c2 ∧ lo ≤ 10 * dv c1 + dv c2 ∧ 10 * dv c1 + dv c2 ≤ hi then
      some (10 * dv c1 + dv c2, rest)
    else if isDig c1 ∧ lo ≤ dv c1 ∧ dv c1 ≤ hi then
      some (dv c1, c2 :: rest)
    else none
  | [c1] =>
    if isDig c1 ∧ lo ≤ dv c1 ∧ dv c1 ≤ hi then some (dv c1, []) else none
  | [] => none

/-- Consume one expected literal character. -/
def expectChar (c : Char) : List Char → Option (List Char)
  | x :: rest => if x = c then some rest else none
  | [] => none

/-- Consume `\s+` (one or more whitespace characters), as `strptime` does for
a literal space in the format. -/
def expectSpaces : List Char → Option (List Char)
  | x :: rest => if isPySpace x then some (rest.dropWhile isPySpace) else none
  | [] => none

/-- Consume exactly four decimal digits (`%Y`). -/
def pFourDigits : List Char → Option (Nat × List Char)
  | c1 :: c2 :: c3 :: c4 :: rest =>
    if isDig c1 ∧ isDig c2 ∧ isDig c3 ∧ isDig c4 then
      some (1000 * dv c1 + 100 * dv c2 + 10 * dv c3 + dv c4, rest)
    else none
  | _ => none

/-- Models `datetime.strptime(date_str, "%d.%m.%Y %H:%M")`: the fixed
`day.month.year hour:minute` format, requiring the whole string to be
consumed, with the `datetime` constructor's range validation (day must exist
in the month, year at least 1). -/
def strptimeDMYHM (s : String) : Option DateTime :=
  (pTwoOrOne 1 31 s.data).bind fun pd =>
  (expectChar '.' pd.2).bind fun l2 =>
  (pTwoOrOne 1 12 l2).bind fun pm =>
  (expectChar '.' pm.2).bind fun l4 =>
  (pFourDigits l4).bind fun py =>
  (expectSpaces py.2).bind fun l6 =>
  (pTwoOrOne 0 23 l6).bind fun ph =>
  (expectChar ':' ph.2).bind fun l8 =>
  (pTwoOrOne 0 59 l8).bind fun pmin =>
  if pmin.2 = [] ∧ 1 ≤ py.1 ∧ pd.1 ≤ daysInMonth py.1 pm.1 then
    some ⟨py.1, pm.1, pd.1, ph.1, pmin.1, 0⟩
  else none

/-- Models `add_event_date`: on a successful parse store the date and advance
to the description step; on `ValueError` reply with the format hint and stay
in the date-awaiting state (the retry loop). -/
def add_event_date (ud : UserData) (text : String) : UserData × Reply × ConvState :=
  match strptimeDMYHM text with
  | some d => ({ ud with event_date := some d }, .descPrompt, .ADDING_EVENT_DESCRIPTION)
  | none => (ud, .badDate, .ADDING_EVENT_DATE)

/-- Models `add_event_description`, the final Add-Event step: `'-'` means an
empty description; if the scratch name (truthy) and date are present and the
write succeeds, append the event and clear the bag; otherwise report failure
(bag untouched). Always ends. `ok` models whether the SQLite insert succeeds. -/
def add_event_description (ok : Bool) (events : List EventRow) (ud : UserData)
    (text : String) : List EventRow × UserData × Reply × ConvState :=
  let description := if text = "-" then "" else text
  match ud.event_name, ud.event_date with
  | some name, some d =>
    if name ≠ "" then
      if ok then (add_event events name d description, emptyUserData, .eventAdded, .END)
      else (events, ud, .eventFailed, .END)
    else (events, ud, .eventDataMissing, .END)
  | some _, none => (events, ud, .eventDataMissing, .END)
  | none, _ => (events, ud, .eventDataMissing, .END)

/-- Models `add_digest_received`: append the digest (if the write succeeds) and
end the conversation. -/
def add_digest_received (ok : Bool) (digests : List String) (text : String) :
    List String × Reply × ConvState :=
  if ok then (add_digest digests text, .digestAdded, .END)
  else (digests, .digestFailed, .END)

/-! ### The Notifier -/

/-- Models `send_daily_digest`, the run-once scheduled job: fetch the most
recent digest (limit 1), fetch the un-notified events within a one-day window,
and compose the outgoing message. The function reads the store and performs no
write (`mark_event_notified` is never called), so the database component of the
result is the input database. -/
def send_daily_digest (db : DBState) (now : DateTime) : String × DBState :=
  let digests := get_recent_digests db.digests 1
  let base :=
    match digests.head? with
    | some d => "📰 Ежедневный дайджест:\n\n" ++ d
    | none => "📰 Ежедневный дайджест:\n\nСегодня нет новых дайджестов."
  let events := get_upcoming_events db.events (some 1) now
  let msg :=
    if events.isEmpty then base
    else base ++ "\n\n📅 События на сегодня:\n" ++
      String.join (events.map (fun (e : Event) => "• " ++ e.name ++ "\n"))
  (msg, db)

/-! ### The Add-Contact conversation wiring -/

/-- An incoming message as the dispatcher sees it. -/
inductive Incoming where
  | command (name : String)
  | text (s : String)
deriving DecidableEq

/-- Models one step of the `contact_conv` `ConversationHandler` (entry
`/add_contact`, states `ADDING_CONTACT_NAME → ADDING_CONTACT_INFO`, fallback
`/cancel`): route the message to the state's handler, with `/cancel` accepted
in every in-flow state. -/
def contact_conv_step (ok : Bool) (contacts : List ContactRow) (ud : UserData)
    (st : ConvState) (msg : Incoming) : List ContactRow × UserData × Reply × ConvState :=
  match st, msg with
  | .ADDING_CONTACT_NAME, .command c =>
    if c = "cancel" then
      match cancel ud with
      | (ud2, r, s) => (contacts, ud2, r, s)
    else (contacts, ud, .ignored, st)
  | .ADDING_CONTACT_NAME, .text t =>
    match add_contact_name ud t with
    | (ud2, r, s) => (contacts, ud2, r, s)
  | .ADDING_CONTACT_INFO, .command c =>
    if c = "cancel" then
      match cancel ud with
      | (ud2, r, s) => (contacts, ud2, r, s)
    else (contacts, ud, .ignored, st)
  | .ADDING_CONTACT_INFO, .text t => add_contact_info ok contacts ud t
  | s, _ => (contacts, ud, .ignored, s)

/-! ### Lemmas and claim theorems -/

/-- Searching for key `k` finds nothing among rows filtered to other keys. -/
theorem find?_filter_ne_key (k : String) (l : List QARow) :
    (l.filter (fun r => r.question != k)).find? (fun r => r.question == k) = none := by
  induction l with
  | nil => rfl
  | cons r rest ih =>
    by_cases h : r.question = k
    · rw [List.filter_cons, if_neg (by simp [h])]
      exact ih
    · rw [List.filter_cons, if_pos (by simp [h]), List.find?_cons_of_neg _ (by simp [h])]
      exact ih

/-- C1: upserting a question twice and looking it up under any letter-case
variant of the question returns the second answer — the second upsert
overwrites the first entry, and both storage and lookup case-fold the key. -/
theorem C1_upsert_overwrites (qa : List QARow) (q a1 a2 q2 : String)
    (h : pyLower q2 = pyLower q) :
    get_company_info (add_company_info (add_company_info qa q a1) q a2) q2 = some a2 := by
  unfold get_company_info add_company_info
  rw [h, List.find?_append, find?_filter_ne_key]
  simp

/-- Witness for C1 at a concrete question and case-variant lookup. -/
theorem C1_upsert_overwrites_witness :
    pyLower "Who Is The CEO" = pyLower "WHO IS THE CEO" ∧
      get_company_info
        (add_company_info (add_company_info [] "WHO IS THE CEO" "Ann") "WHO IS THE CEO" "Bea")
        "Who Is The CEO" = some "Bea" :=
  ⟨by decide, C1_upsert_overwrites [] "WHO IS THE CEO" "Ann" "Bea" "Who Is The CEO" (by decide)⟩

/-- A `find?` is the head of the filtered list. -/
theorem find?_eq_head?_filter {α : Type} (p : α → Bool) (l : List α) :
    l.find? p = (l.filter p).head? := by
  induction l with
  | nil => rfl
  | cons x rest ih =>
    by_cases h : p x
    · rw [List.find?_cons_of_pos _ h, List.filter_cons, if_pos h]
      rfl
    · rw [List.find?_cons_of_neg _ h, List.filter_cons, if_neg h, ih]

/-- C9: `search_contact` returns the head of the list of matching contacts —
exactly one result, the first in table order when several match, and `none`
when no contact matches. -/
theorem C9_search_contact_first_match (contacts : List ContactRow) (s : String) :
    search_contact contacts s =
      (contacts.filter (fun c => likeMatch ('%' :: s.data ++ ['%']) c.name.data)).head? := by
  unfold search_contact
  exact find?_eq_head?_filter _ _

/-- C3: the date step parses `"25.12.2024 15:00"` to 25.12.2024 15:00 and
advances to the description step; every input that fails to parse leaves the
session in the date-awaiting state (`"2024-12-25"` among them); and this is
the only flow step with a retry loop — every other handler leaves its own
awaiting state (the other text handlers always end or advance). -/
theorem C3_date_step_retry :
    strptimeDMYHM "25.12.2024 15:00" = some ⟨2024, 12, 25, 15, 0, 0⟩ ∧
    (∀ ud : UserData, add_event_date ud "25.12.2024 15:00" =
      ({ ud with event_date := some ⟨2024, 12, 25, 15, 0, 0⟩ }, Reply.descPrompt,
        ConvState.ADDING_EVENT_DESCRIPTION)) ∧
    strptimeDMYHM "2024-12-25" = none ∧
    (∀ (ud : UserData) (text : String), strptimeDMYHM text = none →
      add_event_date ud text = (ud, Reply.badDate, ConvState.ADDING_EVENT_DATE)) ∧
    (∀ (qa : List QARow) (text : String), (question_received qa text).2 = ConvState.END) ∧
    (∀ (ok : Bool) (qa : List QARow) (text : String),
      (answer_received ok qa text).2.2 = ConvState.END) ∧
    (∀ (ud : UserData) (text : String),
      (add_contact_name ud text).2.2 = ConvState.ADDING_CONTACT_INFO) ∧
    (∀ (ok : Bool) (contacts : List ContactRow) (ud : UserData) (text : String),
      (add_contact_info ok contacts ud text).2.2.2 = ConvState.END) ∧
    (∀ (ud : UserData) (text : String),
      (add_event_name ud text).2.2 = ConvState.ADDING_EVENT_DATE) ∧
    (∀ (ok : Bool) (events : List EventRow) (ud : UserData) (text : String),
      (add_event_description ok events ud text).2.2.2 = ConvState.END) ∧
    (∀ (ok : Bool) (digests : List String) (text : String),
      (add_digest_received ok digests text).2.2 = ConvState.END) := by
  refine ⟨by decide, ?_, by decide, ?_, ?_, ?_, ?_, ?_, ?_, ?_, ?_⟩
  · intro ud
    unfold add_event_date
    rw [show strptimeDMYHM "25.12.2024 15:00" = some ⟨2024, 12, 25, 15, 0, 0⟩ from by decide]
  · intro ud text h
    unfold add_event_date
    rw [h]
  · intro qa text
    unfold question_received
    cases h : get_company_info qa text
    · rfl
    · rfl
  · intro ok qa text
    unfold answer_received
    dsimp only
    repeat' split
    all_goals rfl
  · intro ud text
    rfl
  · intro ok contacts ud text
    unfold add_contact_info
    repeat' split
    all_goals rfl
  · intro ud text
    rfl
  · intro ok events ud text
    unfold add_event_description
    repeat' split
    all_goals rfl
  · intro ok digests text
    unfold add_digest_received
    split <;> rfl

/-- Witness for C3 at the concrete rejected input `"2024-12-25"`. -/
theorem C3_date_step_retry_witness :
    strptimeDMYHM "2024-12-25" = none ∧
      add_event_date emptyUserData "2024-12-25" =
        (emptyUserData, Reply.badDate, ConvState.ADDING_EVENT_DATE) :=
  ⟨by decide, C3_date_step_retry.2.2.2.1 emptyUserData "2024-12-25" (by decide)⟩

/-- C4 (counterexample): the claimed English-labelled input is rejected with a
format error by the code, whose literal labels are the Russian words
`вопрос`/`ответ` — no pair is parsed or upserted from it. -/
theorem C4_counterexample_english_labels :
    answer_received true [] "Question: What is X? Answer: It is Y." =
      ([], Reply.badFormatLabels, ConvState.END) ∧
    (answer_received true [] "Question: What is X? Answer: It is Y.").1 ≠
      add_company_info [] "What is X?" "It is Y." := by decide

/-- C4 (amended): with the code's Russian labels, the input
`"Вопрос: What is X? Ответ: It is Y."` parses to question `"What is X?"` and
answer `"It is Y."` (both trimmed) and the pair is upserted; if either label
is absent, or the split at the answer label fails, or either trimmed string is
empty, the input is rejected with a format error; and every branch terminates
the session (no retry). -/
theorem C4_amended_single_shot :
    (splitOnAnswerLabel ("Вопрос: What is X? Ответ: It is Y.".data) =
      some ("Вопрос: What is X? ".data, "It is Y.".data)) ∧
    (String.mk (pyStrip (questionPart ("Вопрос: What is X? ".data))) = "What is X?") ∧
    (String.mk (pyStrip ("It is Y.".data)) = "It is Y.") ∧
    (∀ ok : Bool, answer_received ok [] "Вопрос: What is X? Ответ: It is Y." =
      (if ok then (add_company_info [] "What is X?" "It is Y.", Reply.answerAdded, ConvState.END)
       else ([], Reply.qaWriteFailed, ConvState.END))) ∧
    (∀ (ok : Bool) (qa : List QARow) (text : String),
      (pyContains (pyLower text) "вопрос" = false ∨ pyContains (pyLower text) "ответ" = false) →
      answer_received ok qa text = (qa, Reply.badFormatLabels, ConvState.END)) ∧
    (∀ (ok : Bool) (qa : List QARow) (text : String),
      splitOnAnswerLabel text.data = none →
      answer_received ok qa text = (qa, Reply.badFormatSplit, ConvState.END) ∨
      answer_received ok qa text = (qa, Reply.badFormatLabels, ConvState.END)) ∧
    (∀ (ok : Bool) (qa : List QARow) (text : String) (hd tl : List Char),
      splitOnAnswerLabel text.data = some (hd, tl) →
      (String.mk (pyStrip (questionPart hd)) = "" ∨ String.mk (pyStrip tl) = "") →
      answer_received ok qa text = (qa, Reply.emptyQA, ConvState.END) ∨
      answer_received ok qa text = (qa, Reply.badFormatLabels, ConvState.END)) ∧
    (∀ (ok : Bool) (qa : List QARow) (text : String),
      (answer_received ok qa text).2.2 = ConvState.END) := by
  refine ⟨by decide, by decide, by decide, ?_, ?_, ?_, ?_, ?_⟩
  · intro ok
    cases ok <;> decide
  · intro ok qa text h
    unfold answer_received
    dsimp only
    rcases h with h | h <;> rw [if_neg (by simp [h])]
  · intro ok qa text h
    unfold answer_received
    dsimp only
    by_cases hc : (pyContains (pyLower text) "вопрос" && pyContains (pyLower text) "ответ") = true
    · rw [if_pos hc, h]
      exact Or.inl rfl
    · rw [if_neg hc]
      exact Or.inr rfl
  · intro ok qa text hd tl hsplit hempty
    unfold answer_received
    dsimp only
    by_cases hc : (pyContains (pyLower text) "вопрос" && pyContains (pyLower text) "ответ") = true
    · rw [if_pos hc, hsplit]
      dsimp only
      rw [if_neg (by rcases hempty with h | h <;> simp [h])]
      exact Or.inl rfl
    · rw [if_neg hc]
      exact Or.inr rfl
  · intro ok qa text
    unfold answer_received
    dsimp only
    repeat' split
    all_goals rfl

/-- Witness for C4 (amended) at a concrete label-free input. -/
theorem C4_amended_single_shot_witness :
    pyContains (pyLower "no labels here") "ответ" = false ∧
      answer_received true [] "no labels here" = ([], Reply.badFormatLabels, ConvState.END) :=
  ⟨by decide, C4_amended_single_shot.2.2.2.2.1 true [] "no labels here" (Or.inr (by decide))⟩

/-- C7 (counterexample): when the final Add-Contact write fails, the session
does end, but the scratch bag still holds the collected contact name — partial
state IS retained, contrary to the claim that no scratch data survives. -/
theorem C7_counterexample_scratch_survives :
    add_contact_info false [] ⟨some "Bob", none, none⟩ "555-0101" =
      ([], ⟨some "Bob", none, none⟩, Reply.contactFailed, ConvState.END) ∧
    (⟨some "Bob", none, none⟩ : UserData) ≠ emptyUserData := by decide

/-- C7 (amended): the final step of the Add-Contact and Add-Event flows always
ends the session, whether the store write succeeds or fails; on success the
row is appended and the scratch bag cleared; on failure the store is unchanged
and the user is informed, but the scratch bag is retained (not cleared). -/
theorem C7_amended_final_step (ok : Bool) (contacts : List ContactRow)
    (events : List EventRow) (ud : UserData) (text : String) :
    ((add_contact_info ok contacts ud text).2.2.2 = ConvState.END) ∧
    (ok = false → add_contact_info ok contacts ud text =
      (contacts, ud, Reply.contactFailed, ConvState.END)) ∧
    (∀ name : String, ud.contact_name = some name → name ≠ "" → ok = true →
      add_contact_info ok contacts ud text =
        (add_contact contacts name text, emptyUserData, Reply.contactAdded, ConvState.END)) ∧
    ((add_event_description ok events ud text).2.2.2 = ConvState.END) ∧
    (ok = false → (add_event_description ok events ud text).1 = events ∧
      (add_event_description ok events ud text).2.1 = ud) ∧
    (∀ (name : String) (d : DateTime), ud.event_name = some name → name ≠ "" →
      ud.event_date = some d → ok = true →
      add_event_description ok events ud text =
        (add_event events name d (if text = "-" then "" else text), emptyUserData,
          Reply.eventAdded, ConvState.END)) := by
  refine ⟨?_, ?_, ?_, ?_, ?_, ?_⟩
  · unfold add_contact_info
    repeat' split
    all_goals rfl
  · intro h
    subst h
    unfold add_contact_info
    cases hcn : ud.contact_name with
    | none => rfl
    | some name =>
      dsimp only
      by_cases hne : name = ""
      · rw [if_neg (by simp [hne])]
      · rw [if_pos hne]
        rfl
  · intro name hn hne hok
    subst hok
    unfold add_contact_info
    rw [hn]
    dsimp only
    rw [if_pos hne]
    rfl
  · unfold add_event_description
    repeat' split
    all_goals rfl
  · intro h
    subst h
    unfold add_event_description
    dsimp only
    repeat' split
    all_goals first
      | exact ⟨rfl, rfl⟩
      | simp_all
  · intro name d hn hne hd hok
    subst hok
    unfold add_event_description
    rw [hn, hd]
    dsimp only
    rw [if_pos hne]
    rfl

/-- Witness for C7 (amended) at a concrete successful final step. -/
theorem C7_amended_final_step_witness :
    add_contact_info true [] ⟨some "Bob", none, none⟩ "555-0101" =
      (add_contact [] "Bob" "555-0101", emptyUserData, Reply.contactAdded, ConvState.END) :=
  (C7_amended_final_step true [] [] ⟨some "Bob", none, none⟩ "555-0101").2.2.1
    "Bob" rfl (by decide) rfl

/-- C8 (counterexample): cancelling the Add-Contact flow right after providing
the name returns the session to idle and persists nothing, but the scratch bag
still holds the name — the scratch data is NOT discarded, contrary to the
claim. -/
theorem C8_counterexample_scratch_retained :
    add_contact_name emptyUserData "Bob" =
      (⟨some "Bob", none, none⟩, Reply.infoPrompt, ConvState.ADDING_CONTACT_INFO) ∧
    contact_conv_step true [] ⟨some "Bob", none, none⟩ ConvState.ADDING_CONTACT_INFO
      (Incoming.command "cancel") =
      ([], ⟨some "Bob", none, none⟩, Reply.cancelled, ConvState.END) ∧
    (⟨some "Bob", none, none⟩ : UserData) ≠ emptyUserData := by decide

/-- C8 (amended): in every in-flow state of the Add-Contact conversation the
cancel command returns the session to idle and leaves the contacts table
unchanged — in particular no contact is persisted after cancelling between the
name and info steps — but the scratch bag is returned unchanged, not
discarded. -/
theorem C8_amended_cancel (ok : Bool) (contacts : List ContactRow) (ud : UserData)
    (st : ConvState)
    (h : st = ConvState.ADDING_CONTACT_NAME ∨ st = ConvState.ADDING_CONTACT_INFO) :
    contact_conv_step ok contacts ud st (Incoming.command "cancel") =
      (contacts, ud, Reply.cancelled, ConvState.END) := by
  rcases h with h | h <;> subst h <;> rfl

/-- Witness for C8 (amended) at a concrete mid-flow cancel. -/
theorem C8_amended_cancel_witness :
    contact_conv_step true [] ⟨some "Bob", none, none⟩ ConvState.ADDING_CONTACT_NAME
      (Incoming.command "cancel") =
      ([], ⟨some "Bob", none, none⟩, Reply.cancelled, ConvState.END) :=
  C8_amended_cancel true [] ⟨some "Bob", none, none⟩ ConvState.ADDING_CONTACT_NAME (Or.inl rfl)

/-! ### Characterisation of SQLite LIKE matching (for C6) -/

/-- Case-sensitive substring containment, written from the claim's words
("contains the substring with letter case respected"); used only to compare
the specification's description with the implementation's behaviour. -/
def specContainsCaseSensitive (sub s : String) : Bool :=
  containsSub sub.data s.data

/-- A list-prefix test succeeds exactly on prefixes. -/
theorem prefixEq_iff (p l : List Char) : prefixEq p l = true ↔ ∃ r, l = p ++ r := by
  induction p generalizing l with
  | nil => simp [prefixEq]
  | cons a as ih =>
    cases l with
    | nil => simp [prefixEq]
    | cons b bs =>
      rw [show prefixEq (a :: as) (b :: bs) = (a == b && prefixEq as bs) from rfl]
      rw [Bool.and_eq_true, beq_iff_eq, ih]
      constructor
      · rintro ⟨rfl, r, rfl⟩
        exact ⟨r, rfl⟩
      · rintro ⟨r, hr⟩
        rw [List.cons_append] at hr
        obtain ⟨h1, h2⟩ := List.cons.injEq .. ▸ hr
        exact ⟨h1.symm, r, h2⟩

/-- Substring containment succeeds exactly when the pattern occurs inside. -/
theorem containsSub_iff (pat l : List Char) :
    containsSub pat l = true ↔ ∃ a b, l = a ++ pat ++ b := by
  induction l with
  | nil =>
    rw [show containsSub pat [] = pat.isEmpty from rfl, List.isEmpty_iff]
    constructor
    · rintro rfl
      exact ⟨[], [], rfl⟩
    · rintro ⟨a, b, hab⟩
      rcases List.append_eq_nil.mp hab.symm with ⟨h1, h2⟩
      exact (List.append_eq_nil.mp h1).2
  | cons c rest ih =>
    rw [show containsSub pat (c :: rest) =
      (prefixEq pat (c :: rest) || containsSub pat rest) from rfl]
    rw [Bool.or_eq_true, prefixEq_iff, ih]
    constructor
    · rintro (⟨r, hr⟩ | ⟨a, b, hab⟩)
      · exact ⟨[], r, by simpa using hr⟩
      · exact ⟨c :: a, b, by simp [hab]⟩
    · rintro ⟨a, b, hab⟩
      cases a with
      | nil =>
        exact Or.inl ⟨b, by simpa using hab⟩
      | cons a0 as =>
        rw [List.cons_append, List.cons_append] at hab
        obtain ⟨h1, h2⟩ := List.cons.injEq .. ▸ hab
        exact Or.inr ⟨as, b, by simpa using h2⟩

/-- Unfolding lemma for `likeMatch` at a cons pattern. -/
theorem likeMatch_cons (p : Char) (ps t : List Char) :
    likeMatch (p :: ps) t =
      if p = '%' then t.tails.any (fun suf => likeMatch ps suf)
      else
        match t with
        | [] => false
        | c :: ts =>
          if p = '_' then likeMatch ps ts
          else (sqliteFoldChar p == sqliteFoldChar c) && likeMatch ps ts := by
  rw [likeMatch.eq_def]

/-- A `%` wildcard at the head of the pattern matches any split of the text. -/
theorem likeMatch_percent_iff (ps t : List Char) :
    likeMatch ('%' :: ps) t = true ↔
      ∃ u v, t = u ++ v ∧ likeMatch ps v = true := by
  rw [likeMatch_cons, if_pos rfl]
  rw [List.any_eq_true]
  constructor
  · rintro ⟨v, hv, hm⟩
    obtain ⟨u, hu⟩ := (List.mem_tails _ _).mp hv
    exact ⟨u, v, hu.symm, hm⟩
  · rintro ⟨u, v, ht, hm⟩
    exact ⟨v, (List.mem_tails _ _).mpr ⟨u, ht.symm⟩, hm⟩

/-- A lone `%` pattern matches everything. -/
theorem likeMatch_percent_nil (t : List Char) : likeMatch ['%'] t = true :=
  (likeMatch_percent_iff [] t).mpr ⟨t, [], by simp, rfl⟩

/-- A wildcard-free pattern segment consumes a fold-equal prefix of the text. -/
theorem likeMatch_lit_append (s ps t : List Char)
    (hw : ∀ c ∈ s, c ≠ '%' ∧ c ≠ '_') :
    likeMatch (s ++ ps) t = true ↔
      ∃ u v, t = u ++ v ∧ u.map sqliteFoldChar = s.map sqliteFoldChar ∧
        likeMatch ps v = true := by
  induction s generalizing t with
  | nil =>
    constructor
    · intro h
      exact ⟨[], t, rfl, rfl, by simpa using h⟩
    · rintro ⟨u, v, ht, hu, hm⟩
      have hu0 : u = [] := by simpa using hu
      subst hu0
      simp only [List.nil_append] at ht
      subst ht
      simpa using hm
  | cons p s2 ih =>
    have hp := hw p (by simp)
    cases t with
    | nil =>
      rw [List.cons_append, show likeMatch (p :: (s2 ++ ps)) [] = false from by
        rw [likeMatch_cons, if_neg hp.1]]
      constructor
      · intro h
        exact absurd h (by simp)
      · rintro ⟨u, v, ht, hu, hm⟩
        rcases List.append_eq_nil.mp ht.symm with ⟨rfl, rfl⟩
        simp at hu
    | cons c ts =>
      rw [List.cons_append, show likeMatch (p :: (s2 ++ ps)) (c :: ts) =
        (sqliteFoldChar p == sqliteFoldChar c && likeMatch (s2 ++ ps) ts) from by
          rw [likeMatch_cons, if_neg hp.1]
          dsimp only
          rw [if_neg hp.2]]
      rw [Bool.and_eq_true, beq_iff_eq, ih ts (fun x hx => hw x (by simp [hx]))]
      constructor
      · rintro ⟨hfold, u, v, hts, hu, hm⟩
        exact ⟨c :: u, v, by simp [hts], by simp [hu, hfold], hm⟩
      · rintro ⟨u, v, ht, hu, hm⟩
        cases u with
        | nil => simp at hu
        | cons c2 us =>
          rw [List.cons_append] at ht
          obtain ⟨h1, h2⟩ := List.cons.injEq .. ▸ ht
          subst h1
          simp only [List.map_cons, List.cons.injEq] at hu
          exact ⟨hu.1.symm, us, v, h2, hu.2, hm⟩

/-- C6 (amended): `search_contact` matching is SQLite-LIKE matching — for a
search string free of the LIKE wildcards `%`/`_`, a contact matches exactly
when its ASCII-case-folded name contains the ASCII-case-folded search string
as a substring (SQLite's default LIKE folds only the ASCII letters, so the
match is case-insensitive on ASCII and exact on everything else, Cyrillic
included). -/
theorem C6_amended_like_is_folded_substring :
    (∀ (s nm : List Char), (∀ c ∈ s, c ≠ '%' ∧ c ≠ '_') →
      likeMatch ('%' :: s ++ ['%']) nm =
        containsSub (s.map sqliteFoldChar) (nm.map sqliteFoldChar)) ∧
    (∀ (contacts : List ContactRow) (q : String), (∀ c ∈ q.data, c ≠ '%' ∧ c ≠ '_') →
      search_contact contacts q =
        contacts.find? (fun c =>
          containsSub (q.data.map sqliteFoldChar) (c.name.data.map sqliteFoldChar))) := by
  have key : ∀ (s nm : List Char), (∀ c ∈ s, c ≠ '%' ∧ c ≠ '_') →
      likeMatch ('%' :: s ++ ['%']) nm =
        containsSub (s.map sqliteFoldChar) (nm.map sqliteFoldChar) := by
    intro s nm hw
    rw [Bool.eq_iff_iff]
    constructor
    · intro h
      obtain ⟨u, v, rfl, hm⟩ := (likeMatch_percent_iff _ _).mp h
      obtain ⟨w, x, rfl, hwx, _⟩ := (likeMatch_lit_append s ['%'] v hw).mp hm
      rw [containsSub_iff]
      exact ⟨u.map sqliteFoldChar, x.map sqliteFoldChar, by simp [hwx]⟩
    · intro h
      obtain ⟨a, b, hab⟩ := (containsSub_iff _ _).mp h
      rw [List.append_assoc] at hab
      obtain ⟨n1, n2, rfl, h1, h23⟩ := List.map_eq_append_iff.mp hab
      obtain ⟨n3, n4, rfl, h3, h4⟩ := List.map_eq_append_iff.mp h23
      refine (likeMatch_percent_iff _ _).mpr ⟨n1, n3 ++ n4, rfl, ?_⟩
      exact (likeMatch_lit_append s ['%'] _ hw).mpr
        ⟨n3, n4, rfl, h3, likeMatch_percent_nil n4⟩
  refine ⟨key, ?_⟩
  intro contacts q hq
  unfold search_contact
  congr 1
  funext c
  exact key q.data c.name.data hq

/-- Witness for C6 (amended) at a concrete contact list and query. -/
theorem C6_amended_like_is_folded_substring_witness :
    search_contact [⟨"Alice", some "dev"⟩] "aLIce" =
      List.find? (fun c =>
        containsSub ("aLIce".data.map sqliteFoldChar) (c.name.data.map sqliteFoldChar))
        [⟨"Alice", some "dev"⟩] :=
  C6_amended_like_is_folded_substring.2 [⟨"Alice", some "dev"⟩] "aLIce" (by decide)

/-- C6 (counterexample): `search_contact` finds the contact `"Alice"` for the
query `"alice"` although `"Alice"` does not contain `"alice"` with letter case
respected — contact search is NOT case-sensitive on ASCII letters. -/
theorem C6_counterexample_ascii_case_folded :
    search_contact [⟨"Alice", some "dev"⟩] "alice" = some ⟨"Alice", some "dev"⟩ ∧
    specContainsCaseSensitive "alice" "Alice" = false := by decide

/-! ### Digit, comparison and roundtrip lemmas for the event queries -/

/-- Value of a digit character produced by `dchar`. -/
theorem dchar_toNat (d : Nat) (h : d < 10) : (dchar d).toNat = 48 + d := by
  interval_cases d <;> decide

/-- A digit character is reconstructed from its value. -/
theorem isDig_dchar_dv (c : Char) (h : isDig c = true) : dchar (dv c) = c ∧ dv c < 10 := by
  unfold isDig at h
  rw [Bool.and_eq_true, decide_eq_true_eq, decide_eq_true_eq] at h
  constructor
  · unfold dchar dv
    rw [show 48 + (c.toNat - 48) = c.toNat from by omega]
    exact Char.ofNat_toNat c
  · unfold dv
    omega

/-- The SQLite TEXT order is total. -/
theorem listLe_total (a b : List Char) : listLe a b = true ∨ listLe b a = true := by
  induction a generalizing b with
  | nil => exact Or.inl rfl
  | cons x xs ih =>
    cases b with
    | nil => exact Or.inr rfl
    | cons y ys =>
      by_cases h1 : x.toNat < y.toNat
      · exact Or.inl (by simp [listLe, h1])
      · by_cases h2 : y.toNat < x.toNat
        · exact Or.inr (by simp [listLe, h2])
        · rcases ih ys with h | h
          · exact Or.inl (by simp [listLe, h1, h2, h])
          · exact Or.inr (by simp [listLe, h2, h1, h])

/-- The SQLite TEXT order is transitive. -/
theorem listLe_trans : ∀ {a b c : List Char},
    listLe a b = true → listLe b c = true → listLe a c = true := by
  intro a
  induction a with
  | nil => intro b c h1 h2; rfl
  | cons x xs ih =>
    intro b c h1 h2
    cases b with
    | nil => exact absurd h1 (by simp [listLe])
    | cons y ys =>
      cases c with
      | nil => exact absurd h2 (by simp [listLe])
      | cons z zs =>
        simp only [listLe] at h1 h2 ⊢
        by_cases hxy : x.toNat < y.toNat
        · by_cases hyz : y.toNat < z.toNat
          · simp [show x.toNat < z.toNat from by omega]
          · by_cases hzy : z.toNat < y.toNat
            · simp [hyz, hzy] at h2
            · simp [show x.toNat < z.toNat from by omega]
        · by_cases hyx : y.toNat < x.toNat
          · simp [hxy, hyx] at h1
          · by_cases hyz : y.toNat < z.toNat
            · simp [show x.toNat < z.toNat from by omega]
            · by_cases hzy : z.toNat < y.toNat
              · simp [hyz, hzy] at h2
              · simp [hxy, hyx] at h1
                simp [hyz, hzy] at h2
                simp [show ¬x.toNat < z.toNat from by omega,
                  show ¬z.toNat < x.toNat from by omega]
                exact ih h1 h2

instance : IsTotal EventRow eventRowLe :=
  ⟨fun a b => listLe_total a.event_date.data b.event_date.data⟩

instance : IsTrans EventRow eventRowLe :=
  ⟨fun _ _ _ h1 h2 => listLe_trans h1 h2⟩

/-- Comparing two digit-headed lists compares the digit values first. -/
theorem listLe_dchar_cons (x y : Nat) (hx : x < 10) (hy : y < 10) (r1 r2 : List Char) :
    listLe (dchar x :: r1) (dchar y :: r2) =
      (if x < y then true else if y < x then false else listLe r1 r2) := by
  simp only [listLe, dchar_toNat x hx, dchar_toNat y hy]
  by_cases hlt : x < y
  · rw [if_pos (by omega), if_pos hlt]
  · by_cases hgt : y < x
    · rw [if_neg (by omega), if_pos (by omega), if_neg hlt, if_pos hgt]
    · rw [if_neg (by omega), if_neg (by omega), if_neg hlt, if_neg hgt]

/-- Comparing two-digit zero-padded renderings compares the values first. -/
theorem listLe_pad2_append (x y : Nat) (hx : x < 100) (hy : y < 100) (r1 r2 : List Char) :
    listLe (pad2 x ++ r1) (pad2 y ++ r2) =
      (if x < y then true else if y < x then false else listLe r1 r2) := by
  simp only [pad2, List.cons_append, List.nil_append]
  rw [listLe_dchar_cons _ _ (by omega) (by omega),
    listLe_dchar_cons _ _ (by omega) (by omega)]
  split_ifs <;> first | rfl | omega

/-- Comparing four-digit zero-padded renderings compares the values first. -/
theorem listLe_pad4_append (x y : Nat) (hx : x < 10000) (hy : y < 10000) (r1 r2 : List Char) :
    listLe (pad4 x ++ r1) (pad4 y ++ r2) =
      (if x < y then true else if y < x then false else listLe r1 r2) := by
  simp only [pad4, List.cons_append, List.nil_append]
  rw [listLe_dchar_cons _ _ (by omega) (by omega),
    listLe_dchar_cons _ _ (by omega) (by omega),
    listLe_dchar_cons _ _ (by omega) (by omega),
    listLe_dchar_cons _ _ (by omega) (by omega)]
  split_ifs <;> first | rfl | omega

/-- Equal separator characters pass the comparison through. -/
theorem listLe_sep (c : Char) (r1 r2 : List Char) :
    listLe (c :: r1) (c :: r2) = listLe r1 r2 := by
  simp [listLe]

/-- Comparing two-digit renderings with nothing following. -/
theorem listLe_pad2 (x y : Nat) (hx : x < 100) (hy : y < 100) :
    listLe (pad2 x) (pad2 y) = decide (x ≤ y) := by
  simp only [pad2]
  rw [listLe_dchar_cons _ _ (by omega) (by omega),
    listLe_dchar_cons _ _ (by omega) (by omega)]
  split_ifs <;> (rw [Bool.eq_iff_iff]; simp [listLe] <;> omega)

set_option maxHeartbeats 1000000 in
/-- On bounded datetimes, the SQLite TEXT comparison of the stored `isoformat`
strings is exactly the chronological comparison. -/
theorem listLe_isoformat (d1 d2 : DateTime) (h1 : d1.Bounded) (h2 : d2.Bounded) :
    listLe (isoformat d1).data (isoformat d2).data = dtLe d1 d2 := by
  obtain ⟨hy1, hm1, hd1, hh1, hn1, hs1⟩ := h1
  obtain ⟨hy2, hm2, hd2, hh2, hn2, hs2⟩ := h2
  show listLe
    (pad4 d1.year ++ '-' :: pad2 d1.month ++ '-' :: pad2 d1.day ++
      'T' :: pad2 d1.hour ++ ':' :: pad2 d1.minute ++ ':' :: pad2 d1.second)
    (pad4 d2.year ++ '-' :: pad2 d2.month ++ '-' :: pad2 d2.day ++
      'T' :: pad2 d2.hour ++ ':' :: pad2 d2.minute ++ ':' :: pad2 d2.second) = dtLe d1 d2
  simp only [List.append_assoc, List.cons_append]
  rw [listLe_pad4_append _ _ hy1 hy2, listLe_sep, listLe_pad2_append _ _ hm1 hm2,
    listLe_sep, listLe_pad2_append _ _ hd1 hd2, listLe_sep,
    listLe_pad2_append _ _ hh1 hh2, listLe_sep, listLe_pad2_append _ _ hn1 hn2,
    listLe_sep, listLe_pad2 _ _ hs1 hs2]
  unfold dtLe
  split_ifs <;> first | rfl | omega

/-- A value below ten renders as a digit character. -/
theorem isDig_dchar (x : Nat) (h : x < 10) : isDig (dchar x) = true := by
  unfold isDig
  rw [dchar_toNat x h, Bool.and_eq_true, decide_eq_true_eq, decide_eq_true_eq]
  omega

/-- The digit value of a rendered digit character is the value itself. -/
theorem dv_dchar (x : Nat) (h : x < 10) : dv (dchar x) = x := by
  unfold dv
  rw [dchar_toNat x h]
  omega

/-- Calendar validity implies the padding bounds. -/
theorem DateTime.Valid.bounded {d : DateTime} (h : d.Valid) : d.Bounded := by
  obtain ⟨h1, h2, h3, h4, h5, h6, h7, h8, h9⟩ := h
  have hdm : daysInMonth d.year d.month ≤ 31 := by
    unfold daysInMonth
    split_ifs <;> omega
  exact ⟨by omega, by omega, by omega, by omega, by omega, by omega⟩

set_option maxHeartbeats 1000000 in
/-- `fromisoformat` recovers a calendar-valid datetime from its canonical
`isoformat` rendering. -/
theorem fromiso_isoformat (d : DateTime) (h : d.Valid) :
    fromiso (isoformat d) = some d := by
  obtain ⟨Y, MO, DA, HO, MI, SE⟩ := d
  obtain ⟨h1, h2, h3, h4, h5, h6, h7, h8, h9⟩ := h
  dsimp only at h1 h2 h3 h4 h5 h6 h7 h8 h9
  have hds : (isoformat ⟨Y, MO, DA, HO, MI, SE⟩).data =
      dchar (Y / 1000) :: dchar (Y / 100 % 10) :: dchar (Y / 10 % 10) :: dchar (Y % 10) ::
      '-' ::
      dchar (MO / 10) :: dchar (MO % 10) :: '-' :: dchar (DA / 10) :: dchar (DA % 10) ::
      'T' :: dchar (HO / 10) :: dchar (HO % 10) :: ':' :: dchar (MI / 10) ::
      dchar (MI % 10) :: ':' :: dchar (SE / 10) :: dchar (SE % 10) :: [] := by
    simp [isoformat, pad4, pad2]
  have hY : 1000 * dv (dchar (Y / 1000)) + 100 * dv (dchar (Y / 100 % 10)) +
      10 * dv (dchar (Y / 10 % 10)) + dv (dchar (Y % 10)) = Y := by
    rw [dv_dchar _ (by omega), dv_dchar _ (by omega), dv_dchar _ (by omega),
      dv_dchar _ (by omega)]
    omega
  have hMO : 10 * dv (dchar (MO / 10)) + dv (dchar (MO % 10)) = MO := by
    rw [dv_dchar _ (by omega), dv_dchar _ (by omega)]
    omega
  have hDA : 10 * dv (dchar (DA / 10)) + dv (dchar (DA % 10)) = DA := by
    have hdm : daysInMonth Y MO ≤ 31 := by
      unfold daysInMonth
      split_ifs <;> omega
    rw [dv_dchar _ (by omega), dv_dchar _ (by omega)]
    omega
  have hHO : 10 * dv (dchar (HO / 10)) + dv (dchar (HO % 10)) = HO := by
    rw [dv_dchar _ (by omega), dv_dchar _ (by omega)]
    omega
  have hMI : 10 * dv (dchar (MI / 10)) + dv (dchar (MI % 10)) = MI := by
    rw [dv_dchar _ (by omega), dv_dchar _ (by omega)]
    omega
  have hSE : 10 * dv (dchar (SE / 10)) + dv (dchar (SE % 10)) = SE := by
    rw [dv_dchar _ (by omega), dv_dchar _ (by omega)]
    omega
  have hdm31 : daysInMonth Y MO ≤ 31 := by
    unfold daysInMonth
    split_ifs <;> omega
  unfold fromiso
  rw [hds]
  dsimp only
  rw [if_pos ?hc]
  case hc =>
    refine ⟨isDig_dchar _ (by omega), isDig_dchar _ (by omega), isDig_dchar _ (by omega),
      isDig_dchar _ (by omega), isDig_dchar _ (by omega), isDig_dchar _ (by omega),
      isDig_dchar _ (by omega), isDig_dchar _ (by omega), rfl, rfl,
      ?_, ?_, ?_, ?_, ?_⟩
    · rw [hY]
      omega
    · rw [hMO]
      omega
    · rw [hMO]
      omega
    · rw [hDA]
      omega
    · rw [hY, hMO, hDA]
      omega
  unfold parseIsoTime
  dsimp only
  rw [if_pos ?ht]
  case ht =>
    exact ⟨isDig_dchar _ (by omega), isDig_dchar _ (by omega), isDig_dchar _ (by omega),
      isDig_dchar _ (by omega), isDig_dchar _ (by omega), isDig_dchar _ (by omega),
      rfl, rfl, by rw [hHO]; omega, by rw [hMI]; omega, by rw [hSE]; omega⟩
  rw [Option.map_some']
  rw [hY, hMO, hDA, hHO, hMI, hSE]

/-- A two-digit field parse stays within its permitted range. -/
theorem pTwoOrOne_le {lo hi : Nat} {l : List Char} {p : Nat × List Char}
    (h : pTwoOrOne lo hi l = some p) : lo ≤ p.1 ∧ p.1 ≤ hi := by
  unfold pTwoOrOne at h
  split at h
  · split_ifs at h with h1 h2
    · obtain ⟨v, r⟩ := p
      rw [Option.some.injEq, Prod.mk.injEq] at h
      obtain ⟨hv, -⟩ := h
      subst hv
      exact ⟨h1.2.2.1, h1.2.2.2⟩
    · obtain ⟨v, r⟩ := p
      rw [Option.some.injEq, Prod.mk.injEq] at h
      obtain ⟨hv, -⟩ := h
      subst hv
      exact ⟨h2.2.1, h2.2.2⟩
  · split_ifs at h with h1
    obtain ⟨v, r⟩ := p
    rw [Option.some.injEq, Prod.mk.injEq] at h
    obtain ⟨hv, -⟩ := h
    subst hv
    exact ⟨h1.2.1, h1.2.2⟩
  · exact absurd h (by simp)

/-- The digit value of a digit character is below ten. -/
theorem dv_lt_ten {c : Char} (h : isDig c = true) : dv c < 10 := by
  unfold isDig at h
  rw [Bool.and_eq_true, decide_eq_true_eq, decide_eq_true_eq] at h
  unfold dv
  omega

/-- A four-digit year parse is at most 9999. -/
theorem pFourDigits_le {l : List Char} {p : Nat × List Char}
    (h : pFourDigits l = some p) : p.1 ≤ 9999 := by
  unfold pFourDigits at h
  split at h
  · split_ifs at h with h1
    obtain ⟨v, r⟩ := p
    rw [Option.some.injEq, Prod.mk.injEq] at h
    obtain ⟨hv, -⟩ := h
    subst hv
    have d1 := dv_lt_ten h1.1
    have d2 := dv_lt_ten h1.2.1
    have d3 := dv_lt_ten h1.2.2.1
    have d4 := dv_lt_ten h1.2.2.2
    omega
  · exact absurd h (by simp)

/-- Everything the Add-Event date parser accepts is a calendar-valid
datetime. -/
theorem strptimeDMYHM_valid {s : String} {d : DateTime}
    (h : strptimeDMYHM s = some d) : d.Valid := by
  unfold strptimeDMYHM at h
  rw [Option.bind_eq_some] at h
  obtain ⟨pd, hpd, h⟩ := h
  rw [Option.bind_eq_some] at h
  obtain ⟨l2, -, h⟩ := h
  rw [Option.bind_eq_some] at h
  obtain ⟨pm, hpm, h⟩ := h
  rw [Option.bind_eq_some] at h
  obtain ⟨l4, -, h⟩ := h
  rw [Option.bind_eq_some] at h
  obtain ⟨py, hpy, h⟩ := h
  rw [Option.bind_eq_some] at h
  obtain ⟨l6, -, h⟩ := h
  rw [Option.bind_eq_some] at h
  obtain ⟨ph, hph, h⟩ := h
  rw [Option.bind_eq_some] at h
  obtain ⟨l8, -, h⟩ := h
  rw [Option.bind_eq_some] at h
  obtain ⟨pmin, hpmin, h⟩ := h
  rw [Option.ite_none_right_eq_some, Option.some.injEq] at h
  obtain ⟨⟨-, hy1, hdm⟩, hd⟩ := h
  subst hd
  obtain ⟨hda1, hda2⟩ := pTwoOrOne_le hpd
  obtain ⟨hmo1, hmo2⟩ := pTwoOrOne_le hpm
  obtain ⟨-, hho2⟩ := pTwoOrOne_le hph
  obtain ⟨-, hmi2⟩ := pTwoOrOne_le hpmin
  have hy2 := pFourDigits_le hpy
  exact ⟨hy1, hy2, hmo1, hmo2, hda1, hdm, hho2, hmi2, by dsimp only; omega⟩

/-- The parsing loop is a `filterMap`. -/
theorem processRows_eq_filterMap (l : List EventRow) :
    processRows l = l.filterMap (fun r => (fromiso r.event_date).map
      (fun d => ⟨r.name, d, r.description.getD ""⟩)) := by
  induction l with
  | nil => rfl
  | cons r rest ih =>
    cases hr : fromiso r.event_date <;>
      simp [processRows, List.filterMap_cons, hr, ih]

/-- Provenance of the unbounded event query: every returned event comes from a
stored un-notified row whose date string is at least the current time's and
parses to the returned date. -/
theorem mem_get_upcoming_events_unbounded {events : List EventRow} {now : DateTime}
    {e : Event} (he : e ∈ get_upcoming_events events none now) :
    ∃ r ∈ events, r.notified = false ∧ strLe (isoformat now) r.event_date = true ∧
      fromiso r.event_date = some e.event_date ∧ r.name = e.name ∧
      e.description = r.description.getD "" := by
  unfold get_upcoming_events at he
  dsimp only at he
  rw [processRows_eq_filterMap] at he
  obtain ⟨r, hr, hfr⟩ := List.mem_filterMap.mp he
  rw [(List.perm_insertionSort eventRowLe _).mem_iff, List.mem_filter] at hr
  obtain ⟨hmem, hcond⟩ := hr
  rw [Bool.and_eq_true, Bool.not_eq_true'] at hcond
  obtain ⟨d0, hd0, hed⟩ := Option.map_eq_some'.mp hfr
  refine ⟨r, hmem, hcond.2, hcond.1, ?_, ?_, ?_⟩
  · rw [hd0, ← hed]
  · rw [← hed]
  · rw [← hed]

/-- On a store whose date strings are canonical `isoformat` renderings of
calendar-valid datetimes, the unbounded event query returns events in
ascending chronological order. -/
theorem pairwise_get_upcoming_events (events : List EventRow) (now : DateTime)
    (hc : ∀ r ∈ events, ∃ dr, DateTime.Valid dr ∧ r.event_date = isoformat dr) :
    (get_upcoming_events events none now).Pairwise
      (fun e1 e2 => dtLe e1.event_date e2.event_date = true) := by
  unfold get_upcoming_events
  dsimp only
  rw [processRows_eq_filterMap]
  have hmem : ∀ x ∈ (events.filter
      (fun (r : EventRow) => strLe (isoformat now) r.event_date && !r.notified)).insertionSort
      eventRowLe, x ∈ events := fun x hx =>
    (List.mem_filter.mp ((List.perm_insertionSort eventRowLe _).mem_iff.mp hx)).1
  have hp2 := List.Pairwise.and_mem.mp (List.sorted_insertionSort eventRowLe
    (events.filter
      (fun (r : EventRow) => strLe (isoformat now) r.event_date && !r.notified)))
  refine List.Pairwise.filterMap _ ?_ hp2
  intro a b hab x hx y hy
  obtain ⟨hal, hbl, hR⟩ := hab
  rw [Option.mem_def] at hx hy
  obtain ⟨da, hda, hxa⟩ := Option.map_eq_some'.mp hx
  obtain ⟨db2, hdb, hyb⟩ := Option.map_eq_some'.mp hy
  obtain ⟨dra, hva, hea⟩ := hc a (hmem a hal)
  obtain ⟨drb, hvb, heb⟩ := hc b (hmem b hbl)
  have hfa : fromiso a.event_date = some dra := by
    rw [hea]
    exact fromiso_isoformat dra hva
  have hfb : fromiso b.event_date = some drb := by
    rw [heb]
    exact fromiso_isoformat drb hvb
  have hda2 : da = dra := Option.some.inj (hda ▸ hfa)
  have hdb3 : db2 = drb := Option.some.inj (hdb ▸ hfb)
  have hx2 : x.event_date = da := by rw [← hxa]
  have hy2 : y.event_date = db2 := by rw [← hyb]
  rw [hx2, hy2, hda2, hdb3,
    ← listLe_isoformat dra drb (DateTime.Valid.bounded hva) (DateTime.Valid.bounded hvb),
    ← hea, ← heb]
  exact hR

/-- C2 (counterexample): on a store whose date string uses a lowercase
separator — a form `datetime.fromisoformat` accepts — the unbounded query
returns an event dated BEFORE the current time (the TEXT filter compares
`t` above `T`), and with a second canonically-rendered row the result is not
in ascending date order. -/
theorem C2_counterexample_noncanonical_rows :
    get_upcoming_events
        [⟨"Party", "2029-06-15t11:00:00", some "", false⟩] none ⟨2029, 6, 15, 12, 0, 0⟩ =
      [⟨"Party", ⟨2029, 6, 15, 11, 0, 0⟩, ""⟩] ∧
    dtLe ⟨2029, 6, 15, 12, 0, 0⟩ ⟨2029, 6, 15, 11, 0, 0⟩ = false ∧
    get_upcoming_events
        [⟨"Early", "2029-06-15t11:00:00", some "", false⟩,
          ⟨"Late", "2029-06-15T12:30:00", some "", false⟩] none ⟨2029, 6, 15, 10, 0, 0⟩ =
      [⟨"Late", ⟨2029, 6, 15, 12, 30, 0⟩, ""⟩, ⟨"Early", ⟨2029, 6, 15, 11, 0, 0⟩, ""⟩] ∧
    dtLe ⟨2029, 6, 15, 12, 30, 0⟩ ⟨2029, 6, 15, 11, 0, 0⟩ = false := by
  decide

/-- C2 (amended): on every store state whose event rows carry the canonical
`isoformat` rendering of a calendar-valid datetime — which covers every row
this program itself writes, since `add_event` stores `isoformat` of a
`strptime` result and everything `strptime` accepts is calendar-valid (last
conjunct) — the unbounded query returns only events from un-notified rows
dated at or after the current time, in ascending date order, and after
`mark_event_notified` on an exact (name, date) key a subsequent query never
returns an event with that name and date. -/
theorem C2_amended_due_events_canonical (st : List EventRow) (now : DateTime)
    (hnow : now.Bounded)
    (hc : ∀ r ∈ st, ∃ dr, DateTime.Valid dr ∧ r.event_date = isoformat dr) :
    (∀ e ∈ get_upcoming_events st none now,
      (∃ r ∈ st, r.notified = false ∧ strLe (isoformat now) r.event_date = true ∧
        fromiso r.event_date = some e.event_date ∧ r.name = e.name) ∧
      dtLe now e.event_date = true) ∧
    (get_upcoming_events st none now).Pairwise
      (fun e1 e2 => dtLe e1.event_date e2.event_date = true) ∧
    (∀ (n : String) (d : DateTime) (e : Event),
      e ∈ get_upcoming_events (mark_event_notified st n d) none now →
      ¬(e.name = n ∧ e.event_date = d)) ∧
    (∀ (s : String) (d : DateTime), strptimeDMYHM s = some d → d.Valid) := by
  refine ⟨?_, pairwise_get_upcoming_events st now hc, ?_, fun s d hs => strptimeDMYHM_valid hs⟩
  · intro e he
    obtain ⟨r, hmem, hnot, hge, hparse, hname, _⟩ := mem_get_upcoming_events_unbounded he
    refine ⟨⟨r, hmem, hnot, hge, hparse, hname⟩, ?_⟩
    obtain ⟨dr, hv, hr⟩ := hc r hmem
    have hfr : fromiso r.event_date = some dr := by
      rw [hr]
      exact fromiso_isoformat dr hv
    have hedr : e.event_date = dr := Option.some.inj (hparse ▸ hfr)
    rw [hedr, ← listLe_isoformat now dr hnow (DateTime.Valid.bounded hv), ← hr]
    exact hge
  · intro n d e he hne
    obtain ⟨hen, hed⟩ := hne
    obtain ⟨r, hmem, hnot, hge, hparse, hname, _⟩ := mem_get_upcoming_events_unbounded he
    unfold mark_event_notified at hmem
    obtain ⟨r0, hr0, hr0e⟩ := List.mem_map.mp hmem
    obtain ⟨dr, hv, hcanon⟩ := hc r0 hr0
    have hkeep : r.event_date = r0.event_date ∧ r.name = r0.name := by
      by_cases hcc : r0.name = n ∧ r0.event_date = isoformat d
      · rw [if_pos hcc] at hr0e
        rw [← hr0e]
        exact ⟨rfl, rfl⟩
      · rw [if_neg hcc] at hr0e
        rw [← hr0e]
        exact ⟨rfl, rfl⟩
    have hfr : fromiso r.event_date = some dr := by
      rw [hkeep.1, hcanon]
      exact fromiso_isoformat dr hv
    have hedr : e.event_date = dr := Option.some.inj (hparse ▸ hfr)
    have hmatch : r0.name = n ∧ r0.event_date = isoformat d := by
      constructor
      · rw [← hkeep.2, hname, hen]
      · rw [hcanon, ← hedr, hed]
    rw [if_pos hmatch] at hr0e
    rw [← hr0e] at hnot
    simp at hnot

/-- Witness for C2 (amended) at a concrete canonical store and current time. -/
theorem C2_amended_due_events_canonical_witness :
    (∃ r ∈ [(⟨"Launch", "2030-01-01T09:00:00", some "", false⟩ : EventRow)],
      r.notified = false ∧
      strLe (isoformat ⟨2030, 1, 1, 8, 0, 0⟩) r.event_date = true ∧
      fromiso r.event_date = some ⟨2030, 1, 1, 9, 0, 0⟩ ∧ r.name = "Launch") ∧
    dtLe ⟨2030, 1, 1, 8, 0, 0⟩ ⟨2030, 1, 1, 9, 0, 0⟩ = true :=
  (C2_amended_due_events_canonical [⟨"Launch", "2030-01-01T09:00:00", some "", false⟩]
    ⟨2030, 1, 1, 8, 0, 0⟩ (by decide)
    (by
      intro r hr
      rw [List.mem_singleton] at hr
      subst hr
      exact ⟨⟨2030, 1, 1, 9, 0, 0⟩, by decide, by decide⟩)).1
    ⟨"Launch", ⟨2030, 1, 1, 9, 0, 0⟩, ""⟩ (by decide)

/-- `orderedInsert` places its element at a single position. -/
theorem orderedInsert_split (x : EventRow) (l : List EventRow) :
    ∃ l1 l2, l = l1 ++ l2 ∧ List.orderedInsert eventRowLe x l = l1 ++ x :: l2 := by
  induction l with
  | nil => exact ⟨[], [], rfl, rfl⟩
  | cons y ys ih =>
    by_cases h : eventRowLe x y
    · refine ⟨[], y :: ys, rfl, ?_⟩
      rw [List.orderedInsert, if_pos h]
      rfl
    · obtain ⟨l1, l2, hl, hoi⟩ := ih
      refine ⟨y :: l1, l2, by rw [List.cons_append, ← hl], ?_⟩
      rw [List.orderedInsert, if_neg h, hoi]
      rfl

/-- Inserting into a sorted list decomposed around a marked element yields the
same decomposition on the list with the element removed. -/
theorem orderedInsert_remove_middle (y x : EventRow) :
    ∀ (B1 B2 : List EventRow), List.Sorted eventRowLe (B1 ++ x :: B2) →
    ∃ K1 K2, List.orderedInsert eventRowLe y (B1 ++ x :: B2) = K1 ++ x :: K2 ∧
      List.orderedInsert eventRowLe y (B1 ++ B2) = K1 ++ K2 := by
  intro B1
  induction B1 with
  | nil =>
    intro B2 hs
    by_cases h : eventRowLe y x
    · refine ⟨[y], B2, ?_, ?_⟩
      · simp only [List.nil_append]
        rw [List.orderedInsert, if_pos h]
        rfl
      · simp only [List.nil_append]
        cases B2 with
        | nil => rfl
        | cons b bs =>
          have hxb : eventRowLe x b := (List.pairwise_cons.mp hs).1 b (by simp)
          have hyb : eventRowLe y b := listLe_trans h hxb
          rw [List.orderedInsert, if_pos hyb]
          rfl
    · refine ⟨[], List.orderedInsert eventRowLe y B2, ?_, ?_⟩
      · simp only [List.nil_append]
        rw [List.orderedInsert, if_neg h]
      · simp only [List.nil_append]
  | cons b bs ih =>
    intro B2 hs
    have hs2 : List.Sorted eventRowLe (bs ++ x :: B2) := (List.pairwise_cons.mp hs).2
    by_cases h : eventRowLe y b
    · refine ⟨y :: b :: bs, B2, ?_, ?_⟩
      · rw [List.cons_append, List.orderedInsert, if_pos h]
        rfl
      · rw [List.cons_append, List.orderedInsert, if_pos h]
        rfl
    · obtain ⟨K1, K2, h1, h2⟩ := ih B2 hs2
      refine ⟨b :: K1, K2, ?_, ?_⟩
      · rw [List.cons_append, List.orderedInsert, if_neg h, h1]
        rfl
      · rw [List.cons_append, List.orderedInsert, if_neg h, h2]
        rfl

/-- Sorting a list with a marked element yields the sorted remainder with the
element inserted at a single position. -/
theorem insertionSort_remove_middle (x : EventRow) :
    ∀ (l1 l2 : List EventRow),
    ∃ K1 K2, List.insertionSort eventRowLe (l1 ++ x :: l2) = K1 ++ x :: K2 ∧
      List.insertionSort eventRowLe (l1 ++ l2) = K1 ++ K2 ∧
      List.Sorted eventRowLe (K1 ++ x :: K2) := by
  intro l1
  induction l1 with
  | nil =>
    intro l2
    obtain ⟨B1, B2, hB, hoi⟩ := orderedInsert_split x (List.insertionSort eventRowLe l2)
    have hsorted := List.Sorted.orderedInsert (r := eventRowLe) x
      (List.insertionSort eventRowLe l2) (List.sorted_insertionSort eventRowLe l2)
    rw [hoi] at hsorted
    refine ⟨B1, B2, ?_, ?_, hsorted⟩
    · simp only [List.nil_append, List.insertionSort]
      exact hoi
    · simp only [List.nil_append]
      exact hB
  | cons a t ih =>
    intro l2
    obtain ⟨K1, K2, h1, h2, hsK⟩ := ih l2
    obtain ⟨D1, D2, hd1, hd2⟩ := orderedInsert_remove_middle a x K1 K2 hsK
    have hsorted := List.Sorted.orderedInsert (r := eventRowLe) a (K1 ++ x :: K2) hsK
    rw [hd1] at hsorted
    refine ⟨D1, D2, ?_, ?_, hsorted⟩
    · rw [List.cons_append, List.insertionSort, h1, hd1]
    · rw [List.cons_append, List.insertionSort, h2, hd2]

/-- Removing one unparseable row from the selected rows does not change the
processed query result. -/
theorem query_remove_helper (p : EventRow → Bool) (st1 st2 : List EventRow)
    (r : EventRow) (h : fromiso r.event_date = none) :
    processRows (List.insertionSort eventRowLe (List.filter p (st1 ++ r :: st2))) =
      processRows (List.insertionSort eventRowLe (List.filter p (st1 ++ st2))) := by
  rw [List.filter_append, List.filter_append, List.filter_cons]
  by_cases hp : p r = true
  · rw [if_pos hp]
    obtain ⟨K1, K2, h1, h2, _⟩ :=
      insertionSort_remove_middle r (List.filter p st1) (List.filter p st2)
    rw [h1, h2]
    simp [processRows_eq_filterMap, List.filterMap_append, List.filterMap_cons, h]
  · rw [if_neg hp]

/-- C10: the event query is total over corrupt stored data — a stored row whose
date string fails to parse is silently skipped (removing it from the store does
not change the result at all), and every returned event comes from a row whose
date parsed successfully. -/
theorem C10_corrupt_row_skipped (st1 st2 : List EventRow) (r : EventRow)
    (days : Option Nat) (now : DateTime) (h : fromiso r.event_date = none) :
    (get_upcoming_events (st1 ++ r :: st2) days now =
      get_upcoming_events (st1 ++ st2) days now) ∧
    (∀ e ∈ get_upcoming_events (st1 ++ r :: st2) days now,
      ∃ row ∈ st1 ++ r :: st2, fromiso row.event_date = some e.event_date) := by
  constructor
  · unfold get_upcoming_events
    cases days with
    | none =>
      dsimp only
      exact query_remove_helper _ st1 st2 r h
    | some dcount =>
      dsimp only
      exact query_remove_helper _ st1 st2 r h
  · intro e he
    unfold get_upcoming_events at he
    cases days with
    | none =>
      dsimp only at he
      rw [processRows_eq_filterMap] at he
      obtain ⟨row, hrow, hfr⟩ := List.mem_filterMap.mp he
      rw [(List.perm_insertionSort eventRowLe _).mem_iff, List.mem_filter] at hrow
      obtain ⟨d0, hd0, hed⟩ := Option.map_eq_some'.mp hfr
      exact ⟨row, hrow.1, by rw [hd0, ← hed]⟩
    | some dcount =>
      dsimp only at he
      rw [processRows_eq_filterMap] at he
      obtain ⟨row, hrow, hfr⟩ := List.mem_filterMap.mp he
      rw [(List.perm_insertionSort eventRowLe _).mem_iff, List.mem_filter] at hrow
      obtain ⟨d0, hd0, hed⟩ := Option.map_eq_some'.mp hfr
      exact ⟨row, hrow.1, by rw [hd0, ← hed]⟩

/-- Witness for C10 at a concrete corrupt row next to a good row. -/
theorem C10_corrupt_row_skipped_witness :
    get_upcoming_events
        [⟨"Bad", "garbage", none, false⟩, ⟨"Launch", "2030-01-01T09:00:00", some "", false⟩]
        none ⟨2030, 1, 1, 8, 0, 0⟩ =
      get_upcoming_events [⟨"Launch", "2030-01-01T09:00:00", some "", false⟩]
        none ⟨2030, 1, 1, 8, 0, 0⟩ :=
  (C10_corrupt_row_skipped [] [⟨"Launch", "2030-01-01T09:00:00", some "", false⟩]
    ⟨"Bad", "garbage", none, false⟩ none ⟨2030, 1, 1, 8, 0, 0⟩ (by decide)).1

/-- C5 (counterexample): a Notifier run that surfaces the event `"Launch"`
does not mark it notified — the store comes back unchanged (flag still false)
and a second run surfaces the same event again, contrary to the claim that a
surfacing run flips the flag so later runs do not emit the event. -/
theorem C5_counterexample_no_marking :
    (send_daily_digest ⟨[], [], [⟨"Launch", "2030-01-01T09:00:00", some "", false⟩], []⟩
        ⟨2030, 1, 1, 8, 0, 0⟩).2 =
      ⟨[], [], [⟨"Launch", "2030-01-01T09:00:00", some "", false⟩], []⟩ ∧
    pyContains (send_daily_digest
        ⟨[], [], [⟨"Launch", "2030-01-01T09:00:00", some "", false⟩], []⟩
        ⟨2030, 1, 1, 8, 0, 0⟩).1 "Launch" = true ∧
    pyContains (send_daily_digest
        (send_daily_digest ⟨[], [], [⟨"Launch", "2030-01-01T09:00:00", some "", false⟩], []⟩
          ⟨2030, 1, 1, 8, 0, 0⟩).2 ⟨2030, 1, 1, 8, 0, 0⟩).1 "Launch" = true := by
  decide

/-- C5 (amended): the Notifier performs no store write — `send_daily_digest`
returns the database unchanged, so a surfaced event keeps `notified = false`
and is emitted again by a later run; the only operation that sets the flag,
`mark_event_notified` (never invoked by the Notifier), only ever turns it from
false to true, exactly on rows matching the (name, isoformat date) key,
leaving every other field and row unchanged. -/
theorem C5_amended_notifier_never_marks :
    (∀ (db : DBState) (now : DateTime), (send_daily_digest db now).2 = db) ∧
    (∀ (st : List EventRow) (n : String) (d : DateTime),
      (mark_event_notified st n d).length = st.length) ∧
    (∀ (st : List EventRow) (n : String) (d : DateTime) (r : EventRow),
      r ∈ mark_event_notified st n d →
      ∃ r0 ∈ st, r.name = r0.name ∧ r.event_date = r0.event_date ∧
        r.description = r0.description ∧
        (r.notified = true ↔
          (r0.notified = true ∨ (r0.name = n ∧ r0.event_date = isoformat d)))) := by
  refine ⟨?_, ?_, ?_⟩
  · intro db now
    rfl
  · intro st n d
    unfold mark_event_notified
    exact List.length_map _ _
  · intro st n d r hr
    unfold mark_event_notified at hr
    obtain ⟨r0, hr0, hre⟩ := List.mem_map.mp hr
    by_cases hc : r0.name = n ∧ r0.event_date = isoformat d
    · rw [if_pos hc] at hre
      subst hre
      exact ⟨r0, hr0, rfl, rfl, rfl, by simp [hc.1, hc.2]⟩
    · rw [if_neg hc] at hre
      subst hre
      exact ⟨r0, hr0, rfl, rfl, rfl, by simp [hc]⟩

/-- Witness for C5 (amended) at a concrete marked row. -/
theorem C5_amended_notifier_never_marks_witness :
    ∃ r0 ∈ [(⟨"Launch", "2030-01-01T09:00:00", some "", false⟩ : EventRow)],
      (⟨"Launch", "2030-01-01T09:00:00", some "", true⟩ : EventRow).name = r0.name ∧
      (⟨"Launch", "2030-01-01T09:00:00", some "", true⟩ : EventRow).event_date =
        r0.event_date ∧
      (⟨"Launch", "2030-01-01T09:00:00", some "", true⟩ : EventRow).description =
        r0.description ∧
      ((⟨"Launch", "2030-01-01T09:00:00", some "", true⟩ : EventRow).notified = true ↔
        (r0.notified = true ∨ (r0.name = "Launch" ∧
          r0.event_date = isoformat ⟨2030, 1, 1, 9, 0, 0⟩))) :=
  C5_amended_notifier_never_marks.2.2
    [⟨"Launch", "2030-01-01T09:00:00", some "", false⟩] "Launch" ⟨2030, 1, 1, 9, 0, 0⟩
    ⟨"Launch", "2030-01-01T09:00:00", some "", true⟩ (by decide)
